import Mathlib

/-!
Verification of the core game engine of a falling-block puzzle game
(two-cell pieces on a 6×12 grid, same-color clusters of size ≥ 4 cleared,
cascading gravity / chain resolution, scoring).

The definitions below are a shallow embedding of the source file
`src/PuyoPuyo.jsx`.  Design choices, uniform across the development:

* The grid `grid[r][c] = null | colorIndex` is modelled as a total
  function `Fin ROWS → Fin COLS → Option Nat`; `g y x` mirrors the
  source's `grid[y][x]`.  Grids are immutable values, so the source's
  `cloneGrid` has no counterpart.
* Piece coordinates are integers (JavaScript numbers holding integral
  values): the anchor may be temporarily out of bounds as far as the
  data is concerned; `canPlace` performs all bounds checking.
* Random color picks (`randColor`) are modelled as explicit parameters.
* The DFS flood fill of `findClusters` is modelled as a monotone
  saturation of the set of same-color connected cells (a fuel-bounded
  fixpoint iteration); the cluster's cell list is modelled as the
  `Finset` of its cells (the source list contains no duplicates, so
  only the traversal order is abstracted away).
* The `while (true)` chain-resolution loop and the hard-drop loop are
  modelled with explicit fuel; theorems below show the fuel bound is
  never reached (the loops terminate by their own exit condition).
-/

-- --- Config (source: `const COLS = 6; const ROWS = 12;`) ---

def COLS : Nat := 6

def ROWS : Nat := 12

/-- Number of colors in the palette (`COLORS.length = 5`). -/
def NCOLORS : Nat := 5

/-- A cell of the grid: `null` or a color index. -/
abbrev Cell := Option Nat

/-- `grid[y][x]`, as a total function. -/
abbrev Grid := Fin ROWS → Fin COLS → Cell

/-- A board position, written `(x, y)` as in the source's `[x, y]` pairs. -/
abbrev Pos := Fin COLS × Fin ROWS

def cellAt (g : Grid) (p : Pos) : Cell := g p.2 p.1

/-- Source: `emptyGrid()` — all cells `null`. -/
def emptyGrid : Grid := fun _ _ => none

-- --- Piece model ---

/-- Source: a piece `{ x, y, orientation, colors }`. -/
structure Piece where
  x : Int
  y : Int
  orientation : Fin 4
  colors : Nat × Nat
deriving DecidableEq

/-- Source: `CHILD_OFFSETS` — child relative offsets per orientation
(0: up, 1: right, 2: down, 3: left). -/
def CHILD_OFFSETS (o : Fin 4) : Int × Int :=
  match o with
  | 0 => (0, -1)
  | 1 => (1, 0)
  | 2 => (0, 1)
  | 3 => (-1, 0)

/-- Source: `inBounds(x, y)`. -/
def inBounds (x y : Int) : Bool :=
  decide (0 ≤ x ∧ x < (COLS : Int) ∧ 0 ≤ y ∧ y < (ROWS : Int))

/-- Grid lookup at integer coordinates (`grid[y][x]`, `null` when out of
bounds; every use below is guarded by `inBounds`). -/
def cellAtI (g : Grid) (x y : Int) : Cell :=
  if h : 0 ≤ x ∧ x < (COLS : Int) ∧ 0 ≤ y ∧ y < (ROWS : Int) then
    g ⟨y.toNat, by omega⟩ ⟨x.toNat, by omega⟩
  else none

/-- Source: `canPlace(grid, cells)` — every cell in bounds and empty. -/
def canPlace (g : Grid) (cells : List (Int × Int)) : Bool :=
  cells.all (fun c => inBounds c.1 c.2 && (cellAtI g c.1 c.2).isNone)

/-- Source: `getPieceCells(piece)` — anchor cell and child cell, each with
its color. -/
def getPieceCells (p : Piece) : List ((Int × Int) × Nat) :=
  let child := CHILD_OFFSETS p.orientation
  [((p.x, p.y), p.colors.1), ((p.x + child.1, p.y + child.2), p.colors.2)]

/-- The two cell positions of a piece, without colors
(the source's `getPieceCells(p).map(({x,y}) => ({x,y}))`). -/
def pieceCellsPos (p : Piece) : List (Int × Int) :=
  (getPieceCells p).map Prod.fst

/-- Source: `paintPieceOnto(grid, piece)` — sets each in-bounds piece cell
to its color; out-of-bounds cells are silently skipped (here: an
out-of-bounds integer coordinate matches no `Fin` coordinate). -/
def paintPieceOnto (g : Grid) (p : Piece) : Grid :=
  (getPieceCells p).foldl
    (fun acc cell => fun y x =>
      if (x.val : Int) = cell.1.1 ∧ (y.val : Int) = cell.1.2 then some cell.2
      else acc y x)
    g

/-- Source: `spawnPiece()` — anchor `(⌊COLS/2⌋, 0)`, orientation 2 (child
below), two random colors; the random picks are the parameters. -/
def spawnPiece (c1 c2 : Nat) : Piece :=
  { x := ((COLS / 2 : Nat) : Int), y := 0, orientation := 2, colors := (c1, c2) }

-- --- Movement / rotation resolver ---

/-- Source: `tryMove(grid, piece, dx, dy)`. -/
def tryMove (g : Grid) (p : Piece) (dx dy : Int) : Piece :=
  let np : Piece := { p with x := p.x + dx, y := p.y + dy }
  if canPlace g (pieceCellsPos np) then np else p

/-- The rotated orientation `(orientation + dir + 4) % 4`.  For the two
directions actually requested (`+1`/`-1`) the dividend is non-negative,
so JavaScript's remainder agrees with the Euclidean `%` used here. -/
def rotatedOrientation (o : Fin 4) (dir : Int) : Fin 4 :=
  ⟨(((o.val : Int) + dir + 4) % 4).toNat, by
    have h1 := Int.emod_nonneg ((o.val : Int) + dir + 4) (by omega : (4 : Int) ≠ 0)
    have h2 := Int.emod_lt_of_pos ((o.val : Int) + dir + 4) (by omega : (0 : Int) < 4)
    omega⟩

/-- The wall-kick loop of `tryRotate`: try each horizontal offset in
order, returning the first legal kicked piece, else the original piece. -/
def tryKicks (g : Grid) (next orig : Piece) : List Int → Piece
  | [] => orig
  | dx :: rest =>
    let kicked : Piece := { next with x := next.x + dx }
    if canPlace g (pieceCellsPos kicked) then kicked else tryKicks g next orig rest

/-- Source: `tryRotate(grid, piece, dir)` with kick offsets `[-1, 1, -2, 2]`. -/
def tryRotate (g : Grid) (p : Piece) (dir : Int) : Piece :=
  let next : Piece := { p with orientation := rotatedOrientation p.orientation dir }
  if canPlace g (pieceCellsPos next) then next
  else tryKicks g next p [-1, 1, -2, 2]

-- --- Cluster detection (source: `findClusters`) ---

/-- Source: the `dirs` table of the flood fill. -/
def dirs : List (Int × Int) := [(1, 0), (-1, 0), (0, 1), (0, -1)]

/-- Bounds-checked conversion of integer coordinates to a position. -/
def posOfInts (x y : Int) : Option Pos :=
  if h : 0 ≤ x ∧ x < (COLS : Int) ∧ 0 ≤ y ∧ y < (ROWS : Int) then
    some (⟨x.toNat, by omega⟩, ⟨y.toNat, by omega⟩)
  else none

/-- The in-bounds 4-directional neighbors of a position. -/
def nbrs (p : Pos) : List Pos :=
  dirs.filterMap (fun d => posOfInts ((p.1.val : Int) + d.1) ((p.2.val : Int) + d.2))

/-- One step of the flood fill: add every unvisited in-bounds neighbor of
the current cell set whose color is `c` (`avoid` is the `visited` array
state at the time the fill starts). -/
def expand (g : Grid) (c : Nat) (avoid : Finset Pos) (s : Finset Pos) : Finset Pos :=
  s ∪ s.biUnion (fun p =>
    ((nbrs p).filter (fun q => decide (cellAt g q = some c ∧ q ∉ avoid))).toFinset)

/-- Fuel-bounded saturation of `expand` (stops at the fixpoint; the fuel
`COLS * ROWS` is shown below to always suffice). -/
def floodAux (g : Grid) (c : Nat) (avoid : Finset Pos) : Nat → Finset Pos → Finset Pos
  | 0, s => s
  | fuel + 1, s =>
    let t := expand g c avoid s
    if t = s then s else floodAux g c avoid fuel t

/-- The set of cells collected by the source's stack-based flood fill
started at `seed` (the connected same-color region of `seed`, grown
through cells not in `avoid`). -/
def component (g : Grid) (c : Nat) (avoid : Finset Pos) (seed : Pos) : Finset Pos :=
  floodAux g c avoid (COLS * ROWS) {seed}

/-- Source: a cluster `{ color, cells }`. -/
structure Cluster where
  color : Nat
  cells : Finset Pos
deriving DecidableEq

/-- Scan order of `findClusters`: `y` outer, `x` inner. -/
def posList : List Pos :=
  (List.finRange ROWS).flatMap (fun y => (List.finRange COLS).map (fun x => (x, y)))

/-- One scan step of `findClusters`: skip `null` or visited cells;
otherwise flood-fill the component, mark it visited, and report it when
its size is at least 4. -/
def clusterStep (g : Grid) (acc : Finset Pos × List Cluster) (p : Pos) :
    Finset Pos × List Cluster :=
  match cellAt g p with
  | none => acc
  | some c =>
    if p ∈ acc.1 then acc
    else
      let comp := component g c acc.1 p
      (acc.1 ∪ comp, if 4 ≤ comp.card then acc.2 ++ [⟨c, comp⟩] else acc.2)

/-- Source: `findClusters(grid)`. -/
def findClusters (g : Grid) : List Cluster :=
  (posList.foldl (clusterStep g) (∅, [])).2

-- --- Clearing and gravity ---

/-- The union of the cells of a list of clusters. -/
def unionCells (cls : List Cluster) : Finset Pos :=
  cls.foldr (fun K acc => K.cells ∪ acc) ∅

/-- Source: `clearClusters(grid, clusters)` — every cell referenced by a
cluster becomes `null`. -/
def clearClusters (g : Grid) (cls : List Cluster) : Grid :=
  fun y x => if (x, y) ∈ unionCells cls then none else g y x

/-- Column `x` of the grid, top to bottom (`grid[0][x] … grid[ROWS-1][x]`). -/
def colList (g : Grid) (x : Fin COLS) : List Cell :=
  (List.finRange ROWS).map (fun y => g y x)

/-- The effect of the source's write-pointer loop on one column: the
non-`null` values keep their top-to-bottom order and are packed at the
bottom; the vacated top is `null`. -/
def gravityCol (col : List Cell) : List Cell :=
  List.replicate (col.length - (col.filterMap id).length) none
    ++ (col.filterMap id).map some

/-- Source: `applyGravity(grid)` — per-column downward compaction. -/
def applyGravity (g : Grid) : Grid :=
  fun y x => (gravityCol (colList g x)).getD y.val none

-- --- Chain resolution (the `while (true)` loop of `tick`) ---

structure ResolveResult where
  grid : Grid
  totalCleared : Nat
  chain : Nat

/-- The chain-resolution loop body, with explicit fuel: find clusters; if
none, stop; otherwise count the cleared cells, clear, apply gravity,
re-scan. -/
def resolveAux (g : Grid) (chain total : Nat) : Nat → ResolveResult
  | 0 => ⟨g, total, chain⟩
  | fuel + 1 =>
    match findClusters g with
    | [] => ⟨g, total, chain⟩
    | cls =>
      let cleared := (cls.map (fun K => K.cells.card)).sum
      resolveAux (applyGravity (clearClusters g cls)) (chain + 1) (total + cleared) fuel

/-- Chain resolution of a grid (the fuel `COLS * ROWS + 1` is shown below
to always suffice). -/
def resolve (g : Grid) : ResolveResult :=
  resolveAux g 0 0 (COLS * ROWS + 1)

/-- One productive iteration of the resolution loop (used to state what
the loop computes). -/
def stepG (g : Grid) : Grid :=
  applyGravity (clearClusters g (findClusters g))

/-- Number of filled (non-`null`) cells of a grid. -/
def filledSet (g : Grid) : Finset Pos :=
  Finset.univ.filter (fun p => (cellAt g p).isSome)

def filledCount (g : Grid) : Nat := (filledSet g).card

-- --- Hard drop (the Space handler's loop) ---

/-- The hard-drop loop with explicit fuel: move down until `tryMove`
returns the piece unchanged.  (The source compares object references;
`tryMove` returns a fresh object only when the move succeeded, and a
successful `(0, +1)` move always changes `y`, so value equality is
equivalent.) -/
def hardDropAux (g : Grid) : Nat → Piece → Piece
  | 0, cur => cur
  | fuel + 1, cur =>
    let moved := tryMove g cur 0 1
    if moved = cur then cur else hardDropAux g fuel moved

/-- The resting position reached by the Space (hard drop) handler. -/
def hardDropPiece (g : Grid) (p : Piece) : Piece :=
  hardDropAux g (ROWS + 1) p

-- --- Session state machine ---

/-- The session state owned by the game loop (`grid`, `piece`, `score`,
`chains`, `running`, `gameOver`, `softDrop`). -/
structure Session where
  grid : Grid
  piece : Piece
  score : Nat
  chains : Nat
  running : Bool
  gameOver : Bool
  softDrop : Bool
deriving DecidableEq

/-- The input commands of the keyboard handlers (`softOff` is the keyup
handler for ArrowDown; the rest are keydown cases). -/
inductive Key where
  | left | right | softOn | softOff | rotCW | rotCCW | hardDrop | pause | reset
deriving DecidableEq

/-- The keydown handler's early return: when paused or game over, every
keydown command is a no-op. -/
def gated (s : Session) (f : Session → Session) : Session :=
  if s.running = true ∧ s.gameOver = false then f s else s

/-- Source: `reset()` — fresh grid and piece, zero score and chains,
running, not game over (`softDrop` is not touched). -/
def resetSession (nc : Nat × Nat) (s : Session) : Session :=
  { s with grid := emptyGrid, piece := spawnPiece nc.1 nc.2, score := 0,
           chains := 0, gameOver := false, running := true }

/-- The keyboard handlers (`onKey` / `onKeyUp`).  `nc` stands for the
random colors drawn by `spawnPiece` inside `reset`. -/
def handleKey (nc : Nat × Nat) (s : Session) : Key → Session
  | Key.left => gated s (fun t => { t with piece := tryMove t.grid t.piece (-1) 0 })
  | Key.right => gated s (fun t => { t with piece := tryMove t.grid t.piece 1 0 })
  | Key.softOn => gated s (fun t => { t with softDrop := true })
  | Key.softOff => { s with softDrop := false }
  | Key.rotCW => gated s (fun t => { t with piece := tryRotate t.grid t.piece 1 })
  | Key.rotCCW => gated s (fun t => { t with piece := tryRotate t.grid t.piece (-1) })
  | Key.hardDrop => gated s (fun t => { t with piece := hardDropPiece t.grid t.piece })
  | Key.pause => gated s (fun t => { t with running := !t.running })
  | Key.reset => gated s (fun t => resetSession nc t)

/-- One step of same-color adjacency, the edge relation of the flood
fill: `b` is an in-bounds 4-neighbor of `a`, has color `c`, and (for a
fill that skips already-visited cells) is not in `avoid`. -/
def relStep (g : Grid) (c : Nat) (avoid : Finset Pos) (a b : Pos) : Prop :=
  b ∈ nbrs a ∧ cellAt g b = some c ∧ b ∉ avoid

/-- `p` and `q` are connected through color-`c` cells (4-directional). -/
def Conn (g : Grid) (c : Nat) (p q : Pos) : Prop :=
  Relation.ReflTransGen (relStep g c ∅) p q

/-- The flood fill started at `seed` with no cells to avoid: the full
connected component of `seed` through color-`c` cells. -/
def compF (g : Grid) (c : Nat) (seed : Pos) : Finset Pos :=
  component g c ∅ seed

/-- `s` is a maximal 4-directionally connected region of color `c`:
nonempty, single-colored, mutually connected, and closed under
same-color adjacency. -/
def IsMaxRegion (g : Grid) (c : Nat) (s : Finset Pos) : Prop :=
  s.Nonempty ∧ (∀ p ∈ s, cellAt g p = some c) ∧
  (∀ p ∈ s, ∀ q ∈ s, Conn g c p q) ∧
  (∀ p ∈ s, ∀ q, q ∈ nbrs p → cellAt g q = some c → q ∈ s)

/-- Invariant of the `findClusters` scan: the visited set is a union of
full connected components, each whose size is at least 4 is on the
cluster list; every listed cluster is a full component of size at least
4 inside the visited set; listed clusters are pairwise disjoint. -/
def ScanInv (g : Grid) (v : Finset Pos) (cl : List Cluster) : Prop :=
  (∀ q ∈ v, ∃ c, cellAt g q = some c ∧ compF g c q ⊆ v ∧
      (4 ≤ (compF g c q).card → ∃ K ∈ cl, K.color = c ∧ K.cells = compF g c q)) ∧
  (∀ K ∈ cl, ∃ s, cellAt g s = some K.color ∧ K.cells = compF g K.color s ∧
      4 ≤ K.cells.card ∧ K.cells ⊆ v) ∧
  List.Pairwise (fun K K' => Disjoint K.cells K'.cells) cl

/-- The score/chain updates of the lock branch of `tick`
(`setChains(chain); setScore(s => s + totalCleared * 10 * chain)` when
`chain > 0`, else `setChains(0)`), with `r` the result of the
chain-resolution loop. -/
def scoredSession (s : Session) (r : ResolveResult) : Session :=
  if 0 < r.chain then
    { s with score := s.score + r.totalCleared * 10 * r.chain, chains := r.chain }
  else { s with chains := 0 }

/-- The lock branch of `tick`: paint the piece, run chain resolution,
update score and chains, then spawn; if the spawn cells cannot be placed,
freeze the board (`setGameOver(true); setRunning(false)`, piece kept),
else the new piece becomes current.  (The source's local variables `g`,
`chain`, `totalCleared` are inlined.) -/
def lockStep (nc : Nat × Nat) (s : Session) : Session :=
  if canPlace (resolve (paintPieceOnto s.grid s.piece)).grid
      (pieceCellsPos (spawnPiece nc.1 nc.2)) = false then
    { scoredSession s (resolve (paintPieceOnto s.grid s.piece)) with
        grid := (resolve (paintPieceOnto s.grid s.piece)).grid,
        gameOver := true, running := false }
  else
    { scoredSession s (resolve (paintPieceOnto s.grid s.piece)) with
        grid := (resolve (paintPieceOnto s.grid s.piece)).grid,
        piece := spawnPiece nc.1 nc.2 }

/-- Source: the `tick` closure of the game loop.  `nc` stands for the
random colors drawn by `spawnPiece` when the piece locks.  When paused or
game over the interval is not even installed, so the tick is the
identity.  (The source breaks ties by object identity, `moved === p`;
a successful downward move always changes `y`, so value equality below is
equivalent.) -/
def tick (nc : Nat × Nat) (s : Session) : Session :=
  if s.running = true ∧ s.gameOver = false then
    if tryMove s.grid s.piece 0 1 = s.piece then lockStep nc s
    else { s with piece := tryMove s.grid s.piece 0 1 }
  else s

-- --- Concrete inputs used by the witness theorems ---

/-- A board with four color-0 cells at column 0, rows 8–11 (the stack of
the scoring scenario). -/
def gScen : Grid := fun y x =>
  if x.val = 0 ∧ 8 ≤ y.val then some 0 else none

/-- A piece resting on that stack: anchor `(0, 7)` color 0, child above
at `(0, 6)` color 1.  Locking it makes a color-0 cluster of five. -/
def pScen : Piece := { x := 0, y := 7, orientation := 0, colors := (0, 1) }

/-- The session just before the scenario lock. -/
def sScen : Session :=
  { grid := gScen, piece := pScen, score := 0, chains := 0,
    running := true, gameOver := false, softDrop := false }

/-- A board whose column 3 is filled from row 2 down with alternating
colors (no cluster anywhere). -/
def gOver : Grid := fun y x =>
  if x.val = 3 ∧ 2 ≤ y.val then some (y.val % 2) else none

/-- A freshly spawned piece (colors 2, 3) sitting on top of that column:
it cannot move down, and after it locks the spawn cells are occupied. -/
def pOver : Piece := { x := 3, y := 0, orientation := 2, colors := (2, 3) }

/-- The bottom cell of `gOver`'s column (position `(3, 11)`, color 1). -/
def pOverTop : Pos := (⟨3, by decide⟩, ⟨11, by decide⟩)

/-- The session one tick before the game-over transition. -/
def sOver : Session :=
  { grid := gOver, piece := pOver, score := 0, chains := 0,
    running := true, gameOver := false, softDrop := false }

/-- A session already in the game-over state. -/
def sDead : Session :=
  { grid := gOver, piece := pOver, score := 7, chains := 1,
    running := false, gameOver := true, softDrop := false }

-- === Lemmas and theorems ===

-- --- Basic facts about `canPlace` and `tryMove` ---

lemma canPlace_iff (g : Grid) (cells : List (Int × Int)) :
    canPlace g cells = true ↔
      ∀ q ∈ cells, inBounds q.1 q.2 = true ∧ cellAtI g q.1 q.2 = none := by
  simp [canPlace, List.all_eq_true, Bool.and_eq_true, Option.isNone_iff_eq_none]

lemma tryMove_cases (g : Grid) (p : Piece) (dx dy : Int) :
    (canPlace g (pieceCellsPos { p with x := p.x + dx, y := p.y + dy }) = true ∧
      tryMove g p dx dy = { p with x := p.x + dx, y := p.y + dy }) ∨
    (canPlace g (pieceCellsPos { p with x := p.x + dx, y := p.y + dy }) = false ∧
      tryMove g p dx dy = p) := by
  by_cases h : canPlace g (pieceCellsPos { p with x := p.x + dx, y := p.y + dy }) = true
  · exact Or.inl ⟨h, by simp [tryMove, h]⟩
  · exact Or.inr ⟨by simpa using h, by simp [tryMove, h]⟩

lemma inBounds_iff (x y : Int) :
    inBounds x y = true ↔ 0 ≤ x ∧ x < 6 ∧ 0 ≤ y ∧ y < 12 := by
  simp [inBounds, COLS, ROWS]

lemma mem_pieceCellsPos_self (p : Piece) : (p.x, p.y) ∈ pieceCellsPos p := by
  simp [pieceCellsPos, getPieceCells]

/-- A successful placement puts the anchor in bounds. -/
lemma canPlace_anchor_bounds (g : Grid) (p : Piece)
    (h : canPlace g (pieceCellsPos p) = true) :
    0 ≤ p.x ∧ p.x < 6 ∧ 0 ≤ p.y ∧ p.y < 12 := by
  have := ((canPlace_iff g _).mp h) _ (mem_pieceCellsPos_self p)
  exact (inBounds_iff p.x p.y).mp this.1

/-- C3: for every grid, piece and requested delta (along one axis), the
move either is a no-op or shifts the anchor by exactly the delta, and in
the latter case both cells of the result are fully in bounds and empty
(in particular in-bounds-or-off-top legal).  `tryMove` is a total
function, so it cannot raise an error. -/
theorem claim_C3 (g : Grid) (p : Piece) (dx dy : Int) (_haxis : dx = 0 ∨ dy = 0) :
    tryMove g p dx dy = p ∨
    (tryMove g p dx dy = { p with x := p.x + dx, y := p.y + dy } ∧
      ∀ q ∈ pieceCellsPos { p with x := p.x + dx, y := p.y + dy },
        inBounds q.1 q.2 = true ∧ cellAtI g q.1 q.2 = none) := by
  rcases tryMove_cases g p dx dy with ⟨hc, he⟩ | ⟨_, he⟩
  · exact Or.inr ⟨he, (canPlace_iff g _).mp hc⟩
  · exact Or.inl he

theorem claim_C3_witness :
    tryMove emptyGrid pScen 1 0 = pScen ∨
    (tryMove emptyGrid pScen 1 0 = { pScen with x := pScen.x + 1, y := pScen.y + 0 } ∧
      ∀ q ∈ pieceCellsPos { pScen with x := pScen.x + 1, y := pScen.y + 0 },
        inBounds q.1 q.2 = true ∧ cellAtI emptyGrid q.1 q.2 = none) :=
  claim_C3 emptyGrid pScen 1 0 (Or.inr rfl)

/-- C10: a spawned piece has anchor `(3, 0)` and child `(3, 1)` (spawn
orientation is down), both inside the 6×12 bounds — so no spawned cell is
ever above row 0 — for every outcome of the two random color picks. -/
theorem claim_C10 (c1 c2 : Nat) :
    (spawnPiece c1 c2).x = 3 ∧ (spawnPiece c1 c2).y = 0 ∧
    (spawnPiece c1 c2).orientation = 2 ∧
    pieceCellsPos (spawnPiece c1 c2) = [(3, 0), (3, 1)] ∧
    inBounds 3 0 = true ∧ inBounds 3 1 = true :=
  ⟨rfl, rfl, rfl, rfl, by decide, by decide⟩

-- --- Rotation ---

lemma tryKicks_cases (g : Grid) (next orig : Piece) (l : List Int) :
    tryKicks g next orig l = orig ∨
      ∃ dx ∈ l, tryKicks g next orig l = { next with x := next.x + dx } := by
  induction l with
  | nil => exact Or.inl rfl
  | cons dx rest ih =>
    by_cases h : canPlace g (pieceCellsPos { next with x := next.x + dx }) = true
    · exact Or.inr ⟨dx, List.mem_cons_self dx rest, by simp [tryKicks, h]⟩
    · rcases ih with h1 | ⟨dx', hm, h2⟩
      · exact Or.inl (by simp [tryKicks, h, h1])
      · exact Or.inr ⟨dx', List.mem_cons_of_mem dx hm, by simp [tryKicks, h, h2]⟩

lemma tryKicks_of_find?_some (g : Grid) (next orig : Piece) (l : List Int) (dx : Int)
    (h : l.find? (fun d => canPlace g (pieceCellsPos { next with x := next.x + d })) = some dx) :
    tryKicks g next orig l = { next with x := next.x + dx } := by
  induction l with
  | nil => simp at h
  | cons d rest ih =>
    by_cases hc : canPlace g (pieceCellsPos { next with x := next.x + d }) = true
    · simp only [List.find?_cons, hc] at h
      obtain rfl : d = dx := by injection h
      simp [tryKicks, hc]
    · simp only [List.find?_cons, Bool.eq_false_iff.mpr hc] at h
      simp [tryKicks, hc, ih h]

lemma tryKicks_of_find?_none (g : Grid) (next orig : Piece) (l : List Int)
    (h : l.find? (fun d => canPlace g (pieceCellsPos { next with x := next.x + d })) = none) :
    tryKicks g next orig l = orig := by
  induction l with
  | nil => rfl
  | cons d rest ih =>
    by_cases hc : canPlace g (pieceCellsPos { next with x := next.x + d }) = true
    · simp only [List.find?_cons, hc] at h
      exact absurd h (by simp)
    · simp only [List.find?_cons, Bool.eq_false_iff.mpr hc] at h
      simp [tryKicks, hc, ih h]

lemma tryRotate_of_canPlace (g : Grid) (p : Piece) (dir : Int)
    (h : canPlace g (pieceCellsPos { p with orientation := rotatedOrientation p.orientation dir }) = true) :
    tryRotate g p dir = { p with orientation := rotatedOrientation p.orientation dir } := by
  simp [tryRotate, h]

lemma tryRotate_of_not_canPlace (g : Grid) (p : Piece) (dir : Int)
    (h : canPlace g (pieceCellsPos { p with orientation := rotatedOrientation p.orientation dir }) = false) :
    tryRotate g p dir =
      tryKicks g { p with orientation := rotatedOrientation p.orientation dir } p [-1, 1, -2, 2] := by
  simp [tryRotate, h]

/-- C4: the rotated orientation is `(orientation + direction + 4) mod 4`;
the naive rotation is returned when legal; otherwise the horizontal kicks
`-1, +1, -2, +2` are tried in exactly that order (here: the first kick
`List.find?` accepts is returned); when none is legal the original piece
is returned unchanged, so the orientation does not change. -/
theorem claim_C4 (g : Grid) (p : Piece) (dir : Int) (_hdir : dir = 1 ∨ dir = -1) :
    ((rotatedOrientation p.orientation dir).val : Int) =
        ((p.orientation.val : Int) + dir + 4) % 4 ∧
    (canPlace g (pieceCellsPos { p with orientation := rotatedOrientation p.orientation dir }) = true →
      tryRotate g p dir = { p with orientation := rotatedOrientation p.orientation dir }) ∧
    (canPlace g (pieceCellsPos { p with orientation := rotatedOrientation p.orientation dir }) = false →
      ∀ dx : Int,
        ([-1, 1, -2, 2] : List Int).find? (fun d =>
            canPlace g (pieceCellsPos { p with orientation := rotatedOrientation p.orientation dir, x := p.x + d })) = some dx →
          tryRotate g p dir = { p with orientation := rotatedOrientation p.orientation dir, x := p.x + dx }) ∧
    (canPlace g (pieceCellsPos { p with orientation := rotatedOrientation p.orientation dir }) = false →
      ([-1, 1, -2, 2] : List Int).find? (fun d =>
          canPlace g (pieceCellsPos { p with orientation := rotatedOrientation p.orientation dir, x := p.x + d })) = none →
        tryRotate g p dir = p) := by
  refine ⟨?_, ?_, ?_, ?_⟩
  · have h1 := Int.emod_nonneg ((p.orientation.val : Int) + dir + 4) (by omega : (4 : Int) ≠ 0)
    exact Int.toNat_of_nonneg h1
  · exact tryRotate_of_canPlace g p dir
  · intro h dx hfind
    rw [tryRotate_of_not_canPlace g p dir h]
    exact tryKicks_of_find?_some g _ p _ dx hfind
  · intro h hfind
    rw [tryRotate_of_not_canPlace g p dir h]
    exact tryKicks_of_find?_none g _ p _ hfind

theorem claim_C4_witness :
    ((rotatedOrientation pScen.orientation 1).val : Int) =
        ((pScen.orientation.val : Int) + 1 + 4) % 4 ∧
    (canPlace emptyGrid (pieceCellsPos { pScen with orientation := rotatedOrientation pScen.orientation 1 }) = true →
      tryRotate emptyGrid pScen 1 = { pScen with orientation := rotatedOrientation pScen.orientation 1 }) ∧
    (canPlace emptyGrid (pieceCellsPos { pScen with orientation := rotatedOrientation pScen.orientation 1 }) = false →
      ∀ dx : Int,
        ([-1, 1, -2, 2] : List Int).find? (fun d =>
            canPlace emptyGrid (pieceCellsPos { pScen with orientation := rotatedOrientation pScen.orientation 1, x := pScen.x + d })) = some dx →
          tryRotate emptyGrid pScen 1 = { pScen with orientation := rotatedOrientation pScen.orientation 1, x := pScen.x + dx }) ∧
    (canPlace emptyGrid (pieceCellsPos { pScen with orientation := rotatedOrientation pScen.orientation 1 }) = false →
      ([-1, 1, -2, 2] : List Int).find? (fun d =>
          canPlace emptyGrid (pieceCellsPos { pScen with orientation := rotatedOrientation pScen.orientation 1, x := pScen.x + d })) = none →
        tryRotate emptyGrid pScen 1 = pScen) :=
  claim_C4 emptyGrid pScen 1 (Or.inl rfl)

/-- C9: rotation never changes the anchor row or the colors, and moves
the anchor column by at most 2 (the farthest wall kick). -/
theorem claim_C9 (g : Grid) (p : Piece) (dir : Int) (_hdir : dir = 1 ∨ dir = -1) :
    (tryRotate g p dir).y = p.y ∧ (tryRotate g p dir).colors = p.colors ∧
    |(tryRotate g p dir).x - p.x| ≤ 2 := by
  by_cases h : canPlace g (pieceCellsPos { p with orientation := rotatedOrientation p.orientation dir }) = true
  · rw [tryRotate_of_canPlace g p dir h]
    refine ⟨rfl, rfl, by simp⟩
  · rw [tryRotate_of_not_canPlace g p dir (by simpa using h)]
    rcases tryKicks_cases g { p with orientation := rotatedOrientation p.orientation dir } p [-1, 1, -2, 2] with
      h1 | ⟨dx, hdx, h2⟩
    · rw [h1]; refine ⟨rfl, rfl, by simp⟩
    · rw [h2]
      refine ⟨rfl, rfl, ?_⟩
      simp only [List.mem_cons, List.not_mem_nil] at hdx
      have hx : (p.x + dx) - p.x = dx := by ring
      show |p.x + dx - p.x| ≤ 2
      rw [hx]
      rcases hdx with rfl | rfl | rfl | rfl | hF
      · decide
      · decide
      · decide
      · decide
      · exact absurd hF (by simp)

theorem claim_C9_witness :
    (tryRotate emptyGrid pScen 1).y = pScen.y ∧
    (tryRotate emptyGrid pScen 1).colors = pScen.colors ∧
    |(tryRotate emptyGrid pScen 1).x - pScen.x| ≤ 2 :=
  claim_C9 emptyGrid pScen 1 (Or.inl rfl)

-- --- Gravity ---

lemma filterMap_id_replicate_none (n : Nat) :
    (List.replicate n (none : Cell)).filterMap id = [] := by
  induction n with
  | zero => rfl
  | succ m ih => simp [List.replicate, List.filterMap_cons, ih]

lemma filterMap_id_map_some (l : List Nat) :
    ((l.map some).filterMap id : List Nat) = l := by
  induction l with
  | nil => rfl
  | cons a t ih => simp [List.filterMap_cons, ih]

lemma gravityCol_filterMap (col : List Cell) :
    (gravityCol col).filterMap id = col.filterMap id := by
  unfold gravityCol
  rw [List.filterMap_append, filterMap_id_replicate_none, filterMap_id_map_some]
  simp

lemma gravityCol_length (col : List Cell) :
    (gravityCol col).length = col.length := by
  unfold gravityCol
  have := List.length_filterMap_le id col
  simp only [List.length_append, List.length_replicate, List.length_map]
  omega

lemma gravityCol_congr (col col' : List Cell) (h1 : col'.length = col.length)
    (h2 : col'.filterMap id = col.filterMap id) :
    gravityCol col' = gravityCol col := by
  unfold gravityCol; rw [h1, h2]

lemma gravityCol_idem (col : List Cell) :
    gravityCol (gravityCol col) = gravityCol col :=
  gravityCol_congr col (gravityCol col) (gravityCol_length col) (gravityCol_filterMap col)

lemma colList_length (g : Grid) (x : Fin COLS) : (colList g x).length = ROWS := by
  simp [colList]

lemma map_getD_finRange (l : List Cell) (h : l.length = ROWS) :
    (List.finRange ROWS).map (fun y => l.getD y.val none) = l := by
  apply List.ext_get
  · simp [h]
  · intro n h1 h2
    simp only [List.get_eq_getElem, List.getElem_map, List.getElem_finRange]
    rw [List.getD_eq_getElem l none (by simpa [h] using h2)]
    simp [Fin.cast]

lemma colList_applyGravity (g : Grid) (x : Fin COLS) :
    colList (applyGravity g) x = gravityCol (colList g x) := by
  unfold colList applyGravity
  exact map_getD_finRange _ (by rw [gravityCol_length, ← colList_length g x])

/-- C5: `applyGravity` is idempotent. -/
theorem claim_C5 (g : Grid) : applyGravity (applyGravity g) = applyGravity g := by
  funext y x
  show (gravityCol (colList (applyGravity g) x)).getD y.val none
      = (gravityCol (colList g x)).getD y.val none
  rw [colList_applyGravity, gravityCol_idem]

-- --- Hard drop ---

lemma hardDropAux_of_fixed (g : Grid) (fuel : Nat) (cur : Piece)
    (h : tryMove g cur 0 1 = cur) : hardDropAux g fuel cur = cur := by
  cases fuel with
  | zero => rfl
  | succ n => simp [hardDropAux, h]

lemma tryMove_down_y (g : Grid) (cur : Piece) (h : tryMove g cur 0 1 ≠ cur) :
    tryMove g cur 0 1 = { cur with x := cur.x + 0, y := cur.y + 1 } ∧
    (tryMove g cur 0 1).y = cur.y + 1 ∧ cur.y + 1 < 12 := by
  rcases tryMove_cases g cur 0 1 with ⟨hc, he⟩ | ⟨_, he⟩
  · have hb := canPlace_anchor_bounds g _ hc
    exact ⟨he, by rw [he], by simpa using hb.2.2.2⟩
  · exact absurd he h

lemma hardDropAux_fixed (g : Grid) :
    ∀ (fuel : Nat) (cur : Piece), (ROWS : Int) ≤ cur.y + fuel →
      tryMove g (hardDropAux g fuel cur) 0 1 = hardDropAux g fuel cur := by
  intro fuel
  induction fuel with
  | zero =>
    intro cur hy
    show tryMove g cur 0 1 = cur
    by_cases h : tryMove g cur 0 1 = cur
    · exact h
    · have := (tryMove_down_y g cur h).2.2
      simp [ROWS] at hy
      omega
  | succ n ih =>
    intro cur hy
    by_cases h : tryMove g cur 0 1 = cur
    · rw [hardDropAux_of_fixed g _ cur h]; exact h
    · have hstep : hardDropAux g (n + 1) cur = hardDropAux g n (tryMove g cur 0 1) := by
        simp [hardDropAux, h]
      rw [hstep]
      apply ih
      have hyy := (tryMove_down_y g cur h).2.1
      rw [hyy]
      push_cast at hy ⊢
      omega

/-- The hard-dropped piece is a fixed point of moving down. -/
lemma hardDropPiece_fixed (g : Grid) (p : Piece) :
    tryMove g (hardDropPiece g p) 0 1 = hardDropPiece g p := by
  by_cases h : tryMove g p 0 1 = p
  · unfold hardDropPiece
    rw [hardDropAux_of_fixed g _ p h]
    exact h
  · apply hardDropAux_fixed
    have hb := (tryMove_down_y g p h).2.2
    have hy1 := (tryMove_down_y g p h).2.1
    have : 0 ≤ (tryMove g p 0 1).y := by
      rcases tryMove_cases g p 0 1 with ⟨hc, he⟩ | ⟨_, he⟩
      · have := canPlace_anchor_bounds g _ hc
        rw [he]; simpa using this.2.2.1
      · exact absurd he h
    simp [ROWS]
    omega

/-- C8: the hard-drop handler replaces the piece by the fixed point of
repeated `tryMove(..., 0, +1)` and changes nothing else (no lock, no
grid/score/chain change); the result really is a fixed point, for every
grid and piece. -/
theorem claim_C8 (nc : Nat × Nat) (s : Session)
    (h1 : s.running = true) (h2 : s.gameOver = false) :
    handleKey nc s Key.hardDrop = { s with piece := hardDropPiece s.grid s.piece } ∧
    (handleKey nc s Key.hardDrop).grid = s.grid ∧
    (handleKey nc s Key.hardDrop).score = s.score ∧
    (handleKey nc s Key.hardDrop).chains = s.chains ∧
    (∀ (g : Grid) (p : Piece), tryMove g (hardDropPiece g p) 0 1 = hardDropPiece g p) := by
  have hk : handleKey nc s Key.hardDrop = { s with piece := hardDropPiece s.grid s.piece } := by
    simp [handleKey, gated, h1, h2]
  exact ⟨hk, by rw [hk], by rw [hk], by rw [hk], hardDropPiece_fixed⟩

theorem claim_C8_witness :
    handleKey (0, 0) sScen Key.hardDrop = { sScen with piece := hardDropPiece sScen.grid sScen.piece } ∧
    (handleKey (0, 0) sScen Key.hardDrop).grid = sScen.grid ∧
    (handleKey (0, 0) sScen Key.hardDrop).score = sScen.score ∧
    (handleKey (0, 0) sScen Key.hardDrop).chains = sScen.chains ∧
    (∀ (g : Grid) (p : Piece), tryMove g (hardDropPiece g p) 0 1 = hardDropPiece g p) :=
  claim_C8 (0, 0) sScen rfl rfl

-- --- Session state machine: scoring and game over ---

lemma scoredSession_score (s : Session) (r : ResolveResult) :
    (scoredSession s r).score = s.score + r.totalCleared * 10 * r.chain := by
  unfold scoredSession
  split
  · rfl
  · rename_i h
    have h0 : r.chain = 0 := by omega
    simp [h0]

lemma scoredSession_chains (s : Session) (r : ResolveResult) :
    (scoredSession s r).chains = r.chain := by
  unfold scoredSession
  split
  · rfl
  · rename_i h
    have h0 : r.chain = 0 := by omega
    simp [h0]

lemma scoredSession_piece (s : Session) (r : ResolveResult) :
    (scoredSession s r).piece = s.piece := by
  unfold scoredSession; split <;> rfl

lemma tick_eq_lockStep (nc : Nat × Nat) (s : Session)
    (h1 : s.running = true) (h2 : s.gameOver = false)
    (h3 : tryMove s.grid s.piece 0 1 = s.piece) :
    tick nc s = lockStep nc s := by
  unfold tick
  rw [if_pos ⟨h1, h2⟩, if_pos h3]

lemma lockStep_score (nc : Nat × Nat) (s : Session) :
    (lockStep nc s).score =
      s.score + (resolve (paintPieceOnto s.grid s.piece)).totalCleared * 10 *
        (resolve (paintPieceOnto s.grid s.piece)).chain := by
  unfold lockStep
  split
  · exact scoredSession_score s _
  · exact scoredSession_score s _

/-- C2: at a lock event (the piece cannot move down), the score added by
the tick is `totalCleared * 10 * chainLength` for the resolution of the
painted grid; when the chain length is 0 the score is unchanged. -/
theorem claim_C2 (nc : Nat × Nat) (s : Session)
    (h1 : s.running = true) (h2 : s.gameOver = false)
    (h3 : tryMove s.grid s.piece 0 1 = s.piece) :
    (tick nc s).score = s.score +
      (resolve (paintPieceOnto s.grid s.piece)).totalCleared * 10 *
        (resolve (paintPieceOnto s.grid s.piece)).chain ∧
    ((resolve (paintPieceOnto s.grid s.piece)).chain = 0 →
      (tick nc s).score = s.score) := by
  rw [tick_eq_lockStep nc s h1 h2 h3]
  refine ⟨lockStep_score nc s, fun h0 => ?_⟩
  rw [lockStep_score nc s, h0]
  simp

theorem claim_C2_witness :
    (tick (2, 3) sScen).score = sScen.score +
      (resolve (paintPieceOnto sScen.grid sScen.piece)).totalCleared * 10 *
        (resolve (paintPieceOnto sScen.grid sScen.piece)).chain ∧
    ((resolve (paintPieceOnto sScen.grid sScen.piece)).chain = 0 →
      (tick (2, 3) sScen).score = sScen.score) :=
  claim_C2 (2, 3) sScen rfl rfl (by decide)

/-- C7: when the freshly spawned piece's cells cannot be placed on the
post-resolution grid, the tick transitions to game over with the board
frozen (resolved grid kept, running stopped, piece unchanged); and in a
game-over session every tick is the identity and every input command
other than reset leaves grid, piece, score and chains unchanged (the
game-over flag stays set). -/
theorem claim_C7 (nc nc' : Nat × Nat) (s s' : Session) (k : Key) :
    ((s.running = true ∧ s.gameOver = false ∧
      tryMove s.grid s.piece 0 1 = s.piece ∧
      canPlace (resolve (paintPieceOnto s.grid s.piece)).grid
        (pieceCellsPos (spawnPiece nc.1 nc.2)) = false) →
      ((tick nc s).gameOver = true ∧ (tick nc s).running = false ∧
       (tick nc s).grid = (resolve (paintPieceOnto s.grid s.piece)).grid ∧
       (tick nc s).piece = s.piece)) ∧
    (s'.gameOver = true → tick nc' s' = s') ∧
    (s'.gameOver = true → k ≠ Key.reset →
      ((handleKey nc' s' k).grid = s'.grid ∧ (handleKey nc' s' k).piece = s'.piece ∧
       (handleKey nc' s' k).score = s'.score ∧ (handleKey nc' s' k).chains = s'.chains ∧
       (handleKey nc' s' k).gameOver = true)) := by
  refine ⟨?_, ?_, ?_⟩
  · rintro ⟨h1, h2, h3, h4⟩
    rw [tick_eq_lockStep nc s h1 h2 h3]
    unfold lockStep
    rw [if_pos h4]
    exact ⟨rfl, rfl, rfl, scoredSession_piece s _⟩
  · intro hg
    unfold tick
    rw [if_neg (by simp [hg])]
  · intro hg _hk
    have hng : ¬(s'.running = true ∧ s'.gameOver = false) := by simp [hg]
    cases k <;> simp [handleKey, gated, hng, hg]

theorem claim_C7_witness :
    ((tick (0, 0) sOver).gameOver = true ∧ (tick (0, 0) sOver).running = false ∧
     (tick (0, 0) sOver).grid = (resolve (paintPieceOnto sOver.grid sOver.piece)).grid ∧
     (tick (0, 0) sOver).piece = sOver.piece) ∧
    tick (1, 1) sDead = sDead ∧
    ((handleKey (1, 1) sDead Key.left).grid = sDead.grid ∧
     (handleKey (1, 1) sDead Key.left).piece = sDead.piece ∧
     (handleKey (1, 1) sDead Key.left).score = sDead.score ∧
     (handleKey (1, 1) sDead Key.left).chains = sDead.chains ∧
     (handleKey (1, 1) sDead Key.left).gameOver = true) :=
  ⟨(claim_C7 (0, 0) (1, 1) sOver sDead Key.left).1
      ⟨rfl, rfl, by decide, by decide⟩,
   (claim_C7 (0, 0) (1, 1) sOver sDead Key.left).2.1 rfl,
   (claim_C7 (0, 0) (1, 1) sOver sDead Key.left).2.2 rfl (by decide)⟩

-- --- Flood fill: the computed set is the connected component ---

lemma mem_expand {g : Grid} {c : Nat} {avoid s : Finset Pos} {q : Pos} :
    q ∈ expand g c avoid s ↔ q ∈ s ∨ ∃ p ∈ s, relStep g c avoid p q := by
  unfold expand relStep
  simp [List.mem_filter]

lemma subset_expand {g : Grid} {c : Nat} {avoid s : Finset Pos} :
    s ⊆ expand g c avoid s :=
  fun _ hq => mem_expand.mpr (Or.inl hq)

lemma subset_floodAux {g : Grid} {c : Nat} {avoid : Finset Pos} :
    ∀ (fuel : Nat) (s : Finset Pos), s ⊆ floodAux g c avoid fuel s := by
  intro fuel
  induction fuel with
  | zero => intro s; exact Finset.Subset.refl s
  | succ n ih =>
    intro s
    by_cases he : expand g c avoid s = s
    · simp [floodAux, he]
    · calc s ⊆ expand g c avoid s := subset_expand
        _ ⊆ floodAux g c avoid n (expand g c avoid s) := ih _
        _ = floodAux g c avoid (n + 1) s := by simp [floodAux, he]

lemma floodAux_sound {g : Grid} {c : Nat} {avoid : Finset Pos} :
    ∀ (fuel : Nat) (s : Finset Pos) (q : Pos), q ∈ floodAux g c avoid fuel s →
      ∃ p ∈ s, Relation.ReflTransGen (relStep g c avoid) p q := by
  intro fuel
  induction fuel with
  | zero => intro s q hq; exact ⟨q, hq, Relation.ReflTransGen.refl⟩
  | succ n ih =>
    intro s q hq
    by_cases he : expand g c avoid s = s
    · simp [floodAux, he] at hq
      exact ⟨q, hq, Relation.ReflTransGen.refl⟩
    · simp only [floodAux, he, if_false, ite_false] at hq
      obtain ⟨p', hp', hr⟩ := ih _ q hq
      rcases mem_expand.mp hp' with hin | ⟨p, hp, hstep⟩
      · exact ⟨p', hin, hr⟩
      · exact ⟨p, hp, Relation.ReflTransGen.head hstep hr⟩

lemma floodAux_fixed {g : Grid} {c : Nat} {avoid : Finset Pos} :
    ∀ (fuel : Nat) (s : Finset Pos), Fintype.card Pos + 1 ≤ fuel + s.card →
      expand g c avoid (floodAux g c avoid fuel s) = floodAux g c avoid fuel s := by
  intro fuel
  induction fuel with
  | zero =>
    intro s h
    have := Finset.card_le_univ s
    omega
  | succ n ih =>
    intro s h
    by_cases he : expand g c avoid s = s
    · simpa [floodAux, he] using he
    · have hlt : s.card < (expand g c avoid s).card :=
        Finset.card_lt_card (Finset.ssubset_iff_subset_ne.mpr ⟨subset_expand, Ne.symm he⟩)
      have hstep : floodAux g c avoid (n + 1) s = floodAux g c avoid n (expand g c avoid s) := by
        simp [floodAux, he]
      rw [hstep]
      exact ih _ (by omega)

lemma closed_of_expand_fixed {g : Grid} {c : Nat} {avoid S : Finset Pos}
    (hS : expand g c avoid S = S) {p q : Pos} (hp : p ∈ S)
    (hst : relStep g c avoid p q) : q ∈ S := by
  rw [← hS]
  exact mem_expand.mpr (Or.inr ⟨p, hp, hst⟩)

lemma floodAux_complete {g : Grid} {c : Nat} {avoid : Finset Pos} {fuel : Nat}
    {s : Finset Pos}
    (hfix : expand g c avoid (floodAux g c avoid fuel s) = floodAux g c avoid fuel s)
    {p q : Pos} (hp : p ∈ s)
    (hr : Relation.ReflTransGen (relStep g c avoid) p q) :
    q ∈ floodAux g c avoid fuel s := by
  induction hr with
  | refl => exact subset_floodAux fuel s hp
  | tail _hab hbc ih => exact closed_of_expand_fixed hfix ih hbc

lemma card_Pos : Fintype.card Pos = COLS * ROWS := by
  simp [COLS, ROWS]

lemma mem_component {g : Grid} {c : Nat} {avoid : Finset Pos} {seed q : Pos} :
    q ∈ component g c avoid seed ↔
      Relation.ReflTransGen (relStep g c avoid) seed q := by
  constructor
  · intro hq
    obtain ⟨p, hp, hr⟩ := floodAux_sound (COLS * ROWS) {seed} q hq
    rw [Finset.mem_singleton] at hp
    subst hp
    exact hr
  · intro hr
    exact floodAux_complete
      (floodAux_fixed (COLS * ROWS) {seed} (by rw [card_Pos]; simp))
      (Finset.mem_singleton_self seed) hr

lemma mem_compF {g : Grid} {c : Nat} {seed q : Pos} :
    q ∈ compF g c seed ↔ Conn g c seed q :=
  mem_component

lemma seed_mem_compF {g : Grid} {c : Nat} {seed : Pos} : seed ∈ compF g c seed :=
  mem_compF.mpr Relation.ReflTransGen.refl

lemma colored_of_conn {g : Grid} {c : Nat} {avoid : Finset Pos} {seed q : Pos}
    (hseed : cellAt g seed = some c)
    (h : Relation.ReflTransGen (relStep g c avoid) seed q) :
    cellAt g q = some c := by
  induction h with
  | refl => exact hseed
  | tail _hab hbc _ih => exact hbc.2.1

lemma posOfInts_eq_some {x y : Int} {q : Pos} :
    posOfInts x y = some q ↔ (q.1.val : Int) = x ∧ (q.2.val : Int) = y := by
  unfold posOfInts
  split
  · rename_i h
    simp only [Option.some_inj]
    constructor
    · rintro rfl
      constructor
      · show ((x.toNat : Nat) : Int) = x
        omega
      · show ((y.toNat : Nat) : Int) = y
        omega
    · rintro ⟨hx, hy⟩
      have h1 : (⟨x.toNat, by omega⟩ : Fin COLS) = q.1 :=
        Fin.ext (show x.toNat = q.1.val by omega)
      have h2 : (⟨y.toNat, by omega⟩ : Fin ROWS) = q.2 :=
        Fin.ext (show y.toNat = q.2.val by omega)
      rw [Prod.ext_iff]
      exact ⟨h1, h2⟩
  · rename_i h
    constructor
    · intro he
      exact Option.noConfusion he
    · rintro ⟨hx, hy⟩
      exfalso
      apply h
      have hx1 : q.1.val < COLS := q.1.isLt
      have hy1 : q.2.val < ROWS := q.2.isLt
      refine ⟨by omega, by rw [← hx]; exact_mod_cast hx1, by omega,
        by rw [← hy]; exact_mod_cast hy1⟩

lemma mem_nbrs {p q : Pos} :
    q ∈ nbrs p ↔ ∃ d ∈ dirs,
      (q.1.val : Int) = p.1.val + d.1 ∧ (q.2.val : Int) = p.2.val + d.2 := by
  unfold nbrs
  simp [List.mem_filterMap, posOfInts_eq_some]

lemma nbrs_symm {p q : Pos} (h : q ∈ nbrs p) : p ∈ nbrs q := by
  rw [mem_nbrs] at h ⊢
  obtain ⟨d, hd, hx, hy⟩ := h
  simp only [dirs, List.mem_cons, List.not_mem_nil, or_false] at hd
  rcases hd with rfl | rfl | rfl | rfl
  · exact ⟨(-1, 0), by simp [dirs], by simp at hx hy ⊢ <;> omega, by simp at hx hy ⊢ <;> omega⟩
  · exact ⟨(1, 0), by simp [dirs], by simp at hx hy ⊢ <;> omega, by simp at hx hy ⊢ <;> omega⟩
  · exact ⟨(0, -1), by simp [dirs], by simp at hx hy ⊢ <;> omega, by simp at hx hy ⊢ <;> omega⟩
  · exact ⟨(0, 1), by simp [dirs], by simp at hx hy ⊢ <;> omega, by simp at hx hy ⊢ <;> omega⟩

lemma conn_reverse {g : Grid} {c : Nat} {seed q : Pos}
    (hseed : cellAt g seed = some c) (h : Conn g c seed q) : Conn g c q seed := by
  induction h with
  | refl => exact Relation.ReflTransGen.refl
  | tail hab hbc ih =>
    exact Relation.ReflTransGen.head
      ⟨nbrs_symm hbc.1, colored_of_conn hseed hab, Finset.not_mem_empty _⟩ ih

lemma compF_eq_of_mem {g : Grid} {c : Nat} {p q : Pos}
    (hp : cellAt g p = some c) (hq : q ∈ compF g c p) :
    compF g c q = compF g c p := by
  have hpq : Conn g c p q := mem_compF.mp hq
  have hqp : Conn g c q p := conn_reverse hp hpq
  ext r
  rw [mem_compF, mem_compF]
  exact ⟨fun h => hpq.trans h, fun h => hqp.trans h⟩

lemma component_avoid_eq {g : Grid} {c : Nat} {avoid : Finset Pos} {p : Pos}
    (hdisj : ∀ q ∈ avoid, q ∉ compF g c p) :
    component g c avoid p = compF g c p := by
  ext r
  rw [mem_component, mem_compF]
  constructor
  · exact Relation.ReflTransGen.mono (fun a b hab => ⟨hab.1, hab.2.1, Finset.not_mem_empty _⟩)
  · intro h
    induction h with
    | refl => exact Relation.ReflTransGen.refl
    | tail hab hbc ih =>
      refine ih.tail ⟨hbc.1, hbc.2.1, fun hin => ?_⟩
      exact hdisj _ hin (mem_compF.mpr (hab.tail hbc))

-- --- The `findClusters` scan ---

lemma clusterStep_none (g : Grid) (v : Finset Pos) (cl : List Cluster) (p : Pos)
    (h : cellAt g p = none) : clusterStep g (v, cl) p = (v, cl) := by
  unfold clusterStep
  rw [h]

lemma clusterStep_visited (g : Grid) (v : Finset Pos) (cl : List Cluster) (p : Pos)
    (c : Nat) (h : cellAt g p = some c) (hv : p ∈ v) :
    clusterStep g (v, cl) p = (v, cl) := by
  unfold clusterStep
  rw [h]
  simp [hv]

lemma clusterStep_new_big (g : Grid) (v : Finset Pos) (cl : List Cluster) (p : Pos)
    (c : Nat) (h : cellAt g p = some c) (hv : p ∉ v)
    (hbig : 4 ≤ (component g c v p).card) :
    clusterStep g (v, cl) p = (v ∪ component g c v p, cl ++ [⟨c, component g c v p⟩]) := by
  unfold clusterStep
  rw [h]
  simp [hv, hbig]

lemma clusterStep_new_small (g : Grid) (v : Finset Pos) (cl : List Cluster) (p : Pos)
    (c : Nat) (h : cellAt g p = some c) (hv : p ∉ v)
    (hsmall : ¬ 4 ≤ (component g c v p).card) :
    clusterStep g (v, cl) p = (v ∪ component g c v p, cl) := by
  unfold clusterStep
  rw [h]
  simp [hv, hsmall]

set_option maxHeartbeats 800000 in
lemma clusterStep_inv (g : Grid) (v : Finset Pos) (cl : List Cluster) (p : Pos)
    (hinv : ScanInv g v cl) :
    ScanInv g (clusterStep g (v, cl) p).1 (clusterStep g (v, cl) p).2 ∧
    (∀ K ∈ cl, K ∈ (clusterStep g (v, cl) p).2) ∧
    (∀ c, cellAt g p = some c → 4 ≤ (compF g c p).card →
      ∃ K ∈ (clusterStep g (v, cl) p).2, K.color = c ∧ K.cells = compF g c p) := by
  obtain ⟨inv1, inv2, inv3⟩ := hinv
  cases hcell : cellAt g p with
  | none =>
    rw [clusterStep_none g v cl p hcell]
    exact ⟨⟨inv1, inv2, inv3⟩, fun K hK => hK, fun c hc => absurd hc (by simp)⟩
  | some c =>
    by_cases hv : p ∈ v
    · rw [clusterStep_visited g v cl p c hcell hv]
      refine ⟨⟨inv1, inv2, inv3⟩, fun K hK => hK, ?_⟩
      intro c' hc' hcard
      obtain rfl : c = c' := by injection hc'
      obtain ⟨c0, hc0, _hsub, hbig0⟩ := inv1 p hv
      have hceq : c0 = c := by
        rw [hcell] at hc0
        injection hc0 with h0
        exact h0.symm
      subst hceq
      exact hbig0 hcard
    · have hdisj : ∀ q ∈ v, q ∉ compF g c p := by
        intro q hq hqc
        obtain ⟨cq, hcq, hsubq, _⟩ := inv1 q hq
        have hqcol : cellAt g q = some c := colored_of_conn hcell (mem_compF.mp hqc)
        have hceq : cq = c := by
          rw [hqcol] at hcq
          injection hcq with h0
          exact h0.symm
        subst hceq
        have hcc : compF g cq q = compF g cq p := compF_eq_of_mem hcell hqc
        have hpin : p ∈ compF g cq q := by
          rw [hcc]
          exact seed_mem_compF
        exact hv (hsubq hpin)
      have hcomp : component g c v p = compF g c p := component_avoid_eq hdisj
      by_cases hbig : 4 ≤ (component g c v p).card
      · rw [clusterStep_new_big g v cl p c hcell hv hbig]
        rw [hcomp] at hbig ⊢
        refine ⟨⟨?_, ?_, ?_⟩, fun K hK => List.mem_append_left _ hK, ?_⟩
        · intro q hq
          rcases Finset.mem_union.mp hq with hqv | hqc
          · obtain ⟨c0, hc0, hsub, hbig0⟩ := inv1 q hqv
            refine ⟨c0, hc0, hsub.trans Finset.subset_union_left, fun hc4 => ?_⟩
            obtain ⟨K, hK, hKp⟩ := hbig0 hc4
            exact ⟨K, List.mem_append_left _ hK, hKp⟩
          · have hqcol := colored_of_conn hcell (mem_compF.mp hqc)
            have hcc : compF g c q = compF g c p := compF_eq_of_mem hcell hqc
            refine ⟨c, hqcol, ?_, ?_⟩
            · rw [hcc]
              exact Finset.subset_union_right
            · intro _
              refine ⟨⟨c, compF g c p⟩, by simp, rfl, hcc.symm⟩
        · intro K hK
          rcases List.mem_append.mp hK with hKl | hKr
          · obtain ⟨s, hs1, hs2, hs3, hs4⟩ := inv2 K hKl
            exact ⟨s, hs1, hs2, hs3, hs4.trans Finset.subset_union_left⟩
          · rw [List.mem_singleton] at hKr
            subst hKr
            exact ⟨p, hcell, rfl, hbig, Finset.subset_union_right⟩
        · rw [List.pairwise_append]
          refine ⟨inv3, List.pairwise_singleton _ _, ?_⟩
          intro K hK K' hK'
          rw [List.mem_singleton] at hK'
          subst hK'
          obtain ⟨s, _, _, _, hsub⟩ := inv2 K hK
          rw [Finset.disjoint_left]
          intro a haK haC
          exact hdisj a (hsub haK) haC
        · intro c' hc' _hcard
          obtain rfl : c = c' := by injection hc'
          refine ⟨⟨c, compF g c p⟩, by simp, rfl, rfl⟩
      · rw [clusterStep_new_small g v cl p c hcell hv hbig]
        rw [hcomp] at hbig ⊢
        refine ⟨⟨?_, ?_, inv3⟩, fun K hK => hK, ?_⟩
        · intro q hq
          rcases Finset.mem_union.mp hq with hqv | hqc
          · obtain ⟨c0, hc0, hsub, hbig0⟩ := inv1 q hqv
            exact ⟨c0, hc0, hsub.trans Finset.subset_union_left, hbig0⟩
          · have hqcol := colored_of_conn hcell (mem_compF.mp hqc)
            have hcc : compF g c q = compF g c p := compF_eq_of_mem hcell hqc
            refine ⟨c, hqcol, ?_, fun hc4 => ?_⟩
            · rw [hcc]
              exact Finset.subset_union_right
            · rw [hcc] at hc4
              exact absurd hc4 hbig
        · intro K hK
          obtain ⟨s, hs1, hs2, hs3, hs4⟩ := inv2 K hK
          exact ⟨s, hs1, hs2, hs3, hs4.trans Finset.subset_union_left⟩
        · intro c' hc' hcard
          obtain rfl : c = c' := by injection hc'
          exact absurd hcard hbig

lemma foldl_clusterStep_inv (g : Grid) :
    ∀ (l : List Pos) (v : Finset Pos) (cl : List Cluster), ScanInv g v cl →
      ScanInv g (l.foldl (clusterStep g) (v, cl)).1 (l.foldl (clusterStep g) (v, cl)).2 ∧
      (∀ K ∈ cl, K ∈ (l.foldl (clusterStep g) (v, cl)).2) ∧
      (∀ p ∈ l, ∀ c, cellAt g p = some c → 4 ≤ (compF g c p).card →
        ∃ K ∈ (l.foldl (clusterStep g) (v, cl)).2, K.color = c ∧ K.cells = compF g c p) := by
  intro l
  induction l with
  | nil =>
    intro v cl h
    exact ⟨h, fun K hK => hK, by simp⟩
  | cons p rest ih =>
    intro v cl h
    obtain ⟨h1, h2, h3⟩ := clusterStep_inv g v cl p h
    obtain ⟨ih1, ih2, ih3⟩ :=
      ih (clusterStep g (v, cl) p).1 (clusterStep g (v, cl) p).2 h1
    rw [List.foldl_cons]
    refine ⟨ih1, fun K hK => ih2 K (h2 K hK), ?_⟩
    intro q hq c hc hcard
    rcases List.mem_cons.mp hq with rfl | hq'
    · obtain ⟨K, hK, hKp⟩ := h3 c hc hcard
      exact ⟨K, ih2 K hK, hKp⟩
    · exact ih3 q hq' c hc hcard

lemma posList_complete (p : Pos) : p ∈ posList := by
  unfold posList
  rw [List.mem_flatMap]
  exact ⟨p.2, List.mem_finRange _, List.mem_map.mpr ⟨p.1, List.mem_finRange _, rfl⟩⟩

lemma scanInv_empty (g : Grid) : ScanInv g ∅ [] :=
  ⟨by simp, by simp, List.Pairwise.nil⟩

lemma findClusters_spec (g : Grid) :
    (∀ K ∈ findClusters g, ∃ s, cellAt g s = some K.color ∧
      K.cells = compF g K.color s ∧ 4 ≤ K.cells.card) ∧
    List.Pairwise (fun K K' => Disjoint K.cells K'.cells) (findClusters g) ∧
    (∀ p c, cellAt g p = some c → 4 ≤ (compF g c p).card →
      ∃ K ∈ findClusters g, K.color = c ∧ K.cells = compF g c p) := by
  obtain ⟨h1, _h2, h3⟩ := foldl_clusterStep_inv g posList ∅ [] (scanInv_empty g)
  refine ⟨?_, h1.2.2, ?_⟩
  · intro K hK
    obtain ⟨s, hs1, hs2, hs3, _⟩ := h1.2.1 K hK
    exact ⟨s, hs1, hs2, hs3⟩
  · intro p c hc hcard
    exact h3 p (posList_complete p) c hc hcard

lemma isMaxRegion_compF (g : Grid) (c : Nat) (s : Pos) (hs : cellAt g s = some c) :
    IsMaxRegion g c (compF g c s) := by
  refine ⟨⟨s, seed_mem_compF⟩, ?_, ?_, ?_⟩
  · intro p hp
    exact colored_of_conn hs (mem_compF.mp hp)
  · intro p hp q hq
    exact (conn_reverse hs (mem_compF.mp hp)).trans (mem_compF.mp hq)
  · intro p hp q hqn hqc
    exact mem_compF.mpr ((mem_compF.mp hp).tail ⟨hqn, hqc, Finset.not_mem_empty _⟩)

/-- C6: every reported cluster has at least 4 cells and is a maximal
4-directionally connected single-color region, and the reported clusters
are pairwise disjoint (so every cell belongs to at most one cluster). -/
theorem claim_C6 (g : Grid) :
    (∀ K ∈ findClusters g, 4 ≤ K.cells.card ∧ IsMaxRegion g K.color K.cells) ∧
    List.Pairwise (fun K K' => Disjoint K.cells K'.cells) (findClusters g) := by
  obtain ⟨h1, h2, _⟩ := findClusters_spec g
  refine ⟨fun K hK => ?_, h2⟩
  obtain ⟨s, hs, hcells, hcard⟩ := h1 K hK
  refine ⟨hcard, ?_⟩
  rw [hcells]
  exact isMaxRegion_compF g K.color s hs

set_option maxHeartbeats 1000000 in
theorem claim_C6_witness :
    4 ≤ ((findClusters gScen).get ⟨0, by decide⟩).cells.card ∧
    IsMaxRegion gScen ((findClusters gScen).get ⟨0, by decide⟩).color
      ((findClusters gScen).get ⟨0, by decide⟩).cells ∧
    List.Pairwise (fun K K' => Disjoint K.cells K'.cells) (findClusters gScen) :=
  have hm : (findClusters gScen).get ⟨0, by decide⟩ ∈ findClusters gScen :=
    List.get_mem (findClusters gScen) 0 (by decide)
  ⟨((claim_C6 gScen).1 _ hm).1, ((claim_C6 gScen).1 _ hm).2, (claim_C6 gScen).2⟩

-- --- Chain resolution: termination measure and loop characterisation ---

lemma length_filterMap_id (l : List Cell) :
    (l.filterMap id).length = l.countP (fun o => o.isSome) := by
  induction l with
  | nil => rfl
  | cons a t ih => cases a <;> simp [List.filterMap_cons, List.countP_cons, ih]

lemma countP_finRange (n : Nat) (p : Fin n → Bool) :
    (List.finRange n).countP p = ∑ y : Fin n, if p y then 1 else 0 := by
  induction n with
  | zero => simp
  | succ m ih =>
    rw [List.finRange_succ, List.countP_cons, List.countP_map, Fin.sum_univ_succ,
      ih (p ∘ Fin.succ)]
    simp [add_comm]

lemma filledCount_eq_sum (g : Grid) :
    filledCount g = ∑ x : Fin COLS, ((colList g x).filterMap id).length := by
  unfold filledCount filledSet
  rw [Finset.card_filter, Fintype.sum_prod_type]
  apply Finset.sum_congr rfl
  intro x _
  rw [length_filterMap_id]
  unfold colList
  rw [List.countP_map, countP_finRange]
  rfl

lemma filledCount_applyGravity (g : Grid) :
    filledCount (applyGravity g) = filledCount g := by
  rw [filledCount_eq_sum, filledCount_eq_sum]
  apply Finset.sum_congr rfl
  intro x _
  rw [colList_applyGravity, gravityCol_filterMap]

lemma mem_unionCells {cls : List Cluster} {q : Pos} :
    q ∈ unionCells cls ↔ ∃ K ∈ cls, q ∈ K.cells := by
  induction cls with
  | nil => simp [unionCells]
  | cons K rest ih =>
    show q ∈ K.cells ∪ unionCells rest ↔ _
    rw [Finset.mem_union, ih]
    simp

lemma filledSet_clearClusters (g : Grid) (cls : List Cluster) :
    filledSet (clearClusters g cls) = filledSet g \ unionCells cls := by
  ext p
  rw [Finset.mem_sdiff]
  unfold filledSet clearClusters cellAt
  simp only [Finset.mem_filter, Finset.mem_univ, true_and, Prod.mk.eta]
  by_cases hp : p ∈ unionCells cls
  · simp [hp]
  · simp [hp]

lemma filledCount_clear_le (g : Grid) (K : Cluster) (rest : List Cluster)
    (hfc : findClusters g = K :: rest) :
    filledCount (applyGravity (clearClusters g (K :: rest))) + 4 ≤ filledCount g := by
  rw [filledCount_applyGravity]
  have hU : unionCells (K :: rest) ⊆ filledSet g := by
    intro q hq
    obtain ⟨K', hK', hqK⟩ := mem_unionCells.mp hq
    have hKm : K' ∈ findClusters g := by rw [hfc]; exact hK'
    obtain ⟨s, hs1, hs2, _⟩ := (findClusters_spec g).1 K' hKm
    have hqc : cellAt g q = some K'.color :=
      colored_of_conn hs1 (mem_compF.mp (by rw [← hs2]; exact hqK))
    simp [filledSet, hqc]
  have hKsub : K.cells ⊆ unionCells (K :: rest) :=
    fun q hq => mem_unionCells.mpr ⟨K, List.mem_cons_self K rest, hq⟩
  have hK4 : 4 ≤ K.cells.card := by
    have hKm : K ∈ findClusters g := by rw [hfc]; exact List.mem_cons_self K rest
    obtain ⟨s, _, _, h4⟩ := (findClusters_spec g).1 K hKm
    exact h4
  have hcard : 4 ≤ (unionCells (K :: rest)).card :=
    le_trans hK4 (Finset.card_le_card hKsub)
  have hle := Finset.card_le_card hU
  unfold filledCount
  rw [filledSet_clearClusters, Finset.card_sdiff hU]
  omega

lemma resolveAux_no_clusters :
    ∀ (fuel : Nat) (g : Grid) (ch tot : Nat), filledCount g < fuel →
      findClusters (resolveAux g ch tot fuel).grid = [] := by
  intro fuel
  induction fuel with
  | zero => intro g ch tot h; omega
  | succ n ih =>
    intro g ch tot h
    cases hfc : findClusters g with
    | nil => simp [resolveAux, hfc]
    | cons K rest =>
      have hdec := filledCount_clear_le g K rest hfc
      have hstep : resolveAux g ch tot (n + 1) =
          resolveAux (applyGravity (clearClusters g (K :: rest))) (ch + 1)
            (tot + ((K :: rest).map (fun K => K.cells.card)).sum) n := by
        simp [resolveAux, hfc]
      rw [hstep]
      exact ih _ _ _ (by omega)

lemma resolveAux_iterates :
    ∀ (fuel : Nat) (g : Grid) (ch tot : Nat),
      ∃ m, (resolveAux g ch tot fuel).chain = ch + m ∧
        (resolveAux g ch tot fuel).grid = stepG^[m] g ∧
        (∀ i < m, findClusters (stepG^[i] g) ≠ []) := by
  intro fuel
  induction fuel with
  | zero =>
    intro g ch tot
    exact ⟨0, rfl, rfl, fun i hi => absurd hi (by omega)⟩
  | succ n ih =>
    intro g ch tot
    cases hfc : findClusters g with
    | nil =>
      refine ⟨0, ?_, ?_, fun i hi => absurd hi (by omega)⟩
      · simp [resolveAux, hfc]
      · simp [resolveAux, hfc]
    | cons K rest =>
      obtain ⟨m, hm1, hm2, hm3⟩ :=
        ih (applyGravity (clearClusters g (K :: rest))) (ch + 1)
          (tot + ((K :: rest).map (fun K => K.cells.card)).sum)
      have hstep : resolveAux g ch tot (n + 1) =
          resolveAux (applyGravity (clearClusters g (K :: rest))) (ch + 1)
            (tot + ((K :: rest).map (fun K => K.cells.card)).sum) n := by
        simp [resolveAux, hfc]
      have hsg : stepG g = applyGravity (clearClusters g (K :: rest)) := by
        unfold stepG
        rw [hfc]
      refine ⟨m + 1, ?_, ?_, ?_⟩
      · rw [hstep, hm1]
        omega
      · rw [hstep, hm2, Function.iterate_succ_apply, hsg]
      · intro i hi
        cases i with
        | zero =>
          simp [hfc]
        | succ j =>
          rw [Function.iterate_succ_apply, hsg]
          exact hm3 j (by omega)

/-- C1: chain resolution terminates of its own accord (the final grid has
no clusters: the loop's exit condition holds, so the fuel bound is never
the reason to stop); the returned grid is the `chainLength`-fold image of
one clear-and-gravity iteration, each of those iterations found at least
one cluster, and the final grid contains no connected same-color region
of size at least 4. -/
theorem claim_C1 (g : Grid) (n : Nat) (hn : (resolve g).chain = n) :
    (resolve g).grid = stepG^[n] g ∧
    findClusters (resolve g).grid = [] ∧
    (∀ i < n, findClusters (stepG^[i] g) ≠ []) ∧
    (∀ (c : Nat) (s : Finset Pos), s.Nonempty →
      (∀ p ∈ s, cellAt (resolve g).grid p = some c) →
      (∀ p ∈ s, ∀ q ∈ s, Conn (resolve g).grid c p q) → s.card < 4) := by
  have hempty : findClusters (resolve g).grid = [] := by
    apply resolveAux_no_clusters
    have h1 : filledCount g ≤ Fintype.card Pos := by
      unfold filledCount
      have := Finset.card_le_univ (filledSet g)
      omega
    rw [card_Pos] at h1
    omega
  obtain ⟨m, hm1, hm2, hm3⟩ := resolveAux_iterates (COLS * ROWS + 1) g 0 0
  have hmn : m = n := by
    have : (resolve g).chain = 0 + m := hm1
    omega
  subst hmn
  refine ⟨hm2, hempty, hm3, ?_⟩
  intro c s hne hcol hconn
  obtain ⟨p0, hp0⟩ := hne
  have hsub : s ⊆ compF (resolve g).grid c p0 :=
    fun q hq => mem_compF.mpr (hconn p0 hp0 q hq)
  have hlt : (compF (resolve g).grid c p0).card < 4 := by
    by_contra h4
    push_neg at h4
    obtain ⟨K, hK, _⟩ :=
      (findClusters_spec (resolve g).grid).2.2 p0 c (hcol p0 hp0) h4
    rw [hempty] at hK
    exact absurd hK (List.not_mem_nil K)
  exact lt_of_le_of_lt (Finset.card_le_card hsub) hlt

set_option maxHeartbeats 1000000 in
theorem claim_C1_witness :
    (resolve gOver).grid = stepG^[0] gOver ∧
    findClusters (resolve gOver).grid = [] ∧
    ({pOverTop} : Finset Pos).card < 4 :=
  have hc := claim_C1 gOver 0 (by decide)
  ⟨hc.1, hc.2.1,
   hc.2.2.2 1 {pOverTop}
     ⟨pOverTop, Finset.mem_singleton_self pOverTop⟩
     (by decide)
     (fun p hp q hq => by
       rw [Finset.mem_singleton] at hp hq
       subst hp
       subst hq
       exact Relation.ReflTransGen.refl)⟩
